import Mathlib

/-!
Shallow embedding of github.com/zc310/log (src/log.go, src/text_formatter.go,
src/json_formatter.go) and proofs about its output-routing and
entry-lifecycle core.

Conventions:
* Go `int` is modelled as `Int`.
* Go strings that undergo byte-level surgery (registry keys, file paths) are
  modelled as `List Char` (`GoStr`); strings that are only carried around
  (messages, timestamps) are modelled as Lean `String`.
* `sync.Pool` is modelled as a stack (`List Entry`): `Get` pops the head or
  allocates a zero `Entry` when empty, `Put` pushes.  This determinises the
  pool; every theorem quantifies over arbitrary pool contents, so stale
  values are arbitrary.
* External collaborators (`fmt.Sprintf`, the lumberjack rotatable sink) are
  modelled as parameters (universally quantified functions / callback
  records), never given fake behaviour.
-/

namespace ZcLog

/-- A Go value as observed by the `switch v := arg.(type)` in `Log.Output`
(src/log.go).  The switch tries `error`, then `fmt.Stringer`, then `string`,
then default, in that order; a value implementing both `error` and
`fmt.Stringer` hits the `error` case first, so `errVal` also covers such
dual-capability values (carrying the `Error()` text the switch extracts). -/
inductive GoVal where
  | errVal (msg : String)
  | stringerVal (s : String)
  | strVal (s : String)
  | otherVal (tag : Nat)
  deriving DecidableEq, Repr

/-- A Go `interface{}` value as stored into `Entry.Message`: either a string
produced by normalization, a non-normalized original value, the `[]interface{}`
slice `b`, or the nil interface of a zero `Entry`. -/
inductive GoAny where
  | str (s : String)
  | val (v : GoVal)
  | list (xs : List GoAny)
  | nil

/-- One arm of the type switch in `Log.Output` (src/log.go): `error` values
become `v.Error()`, `fmt.Stringer` values become `v.String()`, `string`
values pass through, anything else is stored as-is. -/
def normalizeArg : GoVal → GoAny
  | .errVal m => .str m
  | .stringerVal s => .str s
  | .strVal s => .str s
  | .otherVal t => .val (.otherVal t)

/-- The `Message` value built by `Log.Output` from the argument slice `a`:
`b := map normalize a`; a single element is stored bare, otherwise the slice
itself is stored (src/log.go, `if len(b) == 1`). -/
def outputMessage (a : List GoVal) : GoAny :=
  let b := a.map normalizeArg
  match b with
  | [x] => x
  | _ => .list b

/-- The `Entry` struct of src/log.go: a timestamp string and a message. -/
structure Entry where
  time : String
  message : GoAny

/-- The zero value `new(Entry)` produced by the pool's `New` function. -/
def Entry.zero : Entry := ⟨"", .nil⟩

/-- Model of `p.pool.Get()`: pop the head of the pool stack, or allocate a zero
`Entry` when the pool is empty. -/
def poolGet (pool : List Entry) : Entry × List Entry :=
  match pool with
  | [] => (Entry.zero, [])
  | e :: rest => (e, rest)

/-- A formatter observed through its effect on the destination writer: either
it succeeds, having written `bytes` to the writer it was handed, or it fails
with error text `e` (as `TextFormatter.Format` does on a marshal failure,
writing nothing to the destination). -/
inductive FmtResult where
  | ok (bytes : String)
  | fail (e : String)
  deriving DecidableEq, Repr

/-- The `Formatter` contract: `Format(entry, w)` as a function of the entry. -/
def GoFormatter : Type := Entry → FmtResult

/-- Observable state threaded through one `Output`/`Outputf` call: the
logger's pool, the bytes written to the destination writer `w`, and the
bytes written to the fallback stream `os.Stderr`. -/
structure OutState where
  pool : List Entry
  sinkOut : List String
  stderrOut : List String

/-- The text `fmt.Fprintf(os.Stderr, "Failed to write to log, %v\n", err)`
emits on a formatter error (src/log.go). -/
def failText (e : String) : String := "Failed to write to log, " ++ e ++ "\n"

/-- Shared tail of `Log.Output` / `Log.Outputf` once the gate has passed and
the entry fields have been overwritten: run the formatter, report a failure
to stderr, release the entry.  Returns the new state and the entry that was
handed to `Formatter.Format`. -/
def formatAndRelease (fmtr : GoFormatter) (e : Entry) (rest : List Entry)
    (st : OutState) : OutState × Option Entry :=
  match fmtr e with
  | .ok bytes =>
      (⟨e :: rest, st.sinkOut ++ [bytes], st.stderrOut⟩, some e)
  | .fail err =>
      (⟨e :: rest, st.sinkOut, st.stderrOut ++ [failText err]⟩, some e)

/-- Embedding of `Log.Output` (src/log.go): gate on `logLevel >= p.Level`; on pass, get a
pooled entry, overwrite `Time` with the current formatted time and `Message`
with the normalized arguments, format, report any formatter error to stderr,
and put the entry back.  `G` is the global `logLevel`, `level` is `p.Level`,
`now` is `time.Now().Format(time.RFC3339)`.  Returns the new state and the
entry handed to the formatter (`none` when the call was gated out). -/
def Output (G level : Int) (fmtr : GoFormatter) (now : String)
    (a : List GoVal) (st : OutState) : OutState × Option Entry :=
  if G ≥ level then
    let (e0, rest) := poolGet st.pool
    let e1 := { e0 with time := now }
    let e2 := { e1 with message := outputMessage a }
    formatAndRelease fmtr e2 rest st
  else
    (st, none)

/-- Embedding of `Log.Outputf` (src/log.go): like `Output` but `Message` is
`fmt.Sprintf(format, a...)`.  `sprintf` models the external `fmt.Sprintf`. -/
def Outputf (G level : Int) (fmtr : GoFormatter)
    (sprintf : String → List GoVal → String) (now format : String)
    (a : List GoVal) (st : OutState) : OutState × Option Entry :=
  if G ≥ level then
    let (e0, rest) := poolGet st.pool
    let e1 := { e0 with time := now }
    let e2 := { e1 with message := .str (sprintf format a) }
    formatAndRelease fmtr e2 rest st
  else
    (st, none)

/-! ## Registry, keys and file paths (src/log.go) -/

/-- A Go string manipulated at byte level (keys, paths). -/
abbrev GoStr := List Char

/-- One decimal digit, as produced by `fmt.Sprintf("%d", ...)`. -/
def digitChar : Nat → Char
  | 0 => '0' | 1 => '1' | 2 => '2' | 3 => '3' | 4 => '4'
  | 5 => '5' | 6 => '6' | 7 => '7' | 8 => '8' | _ => '9'

/-- Fueled decimal rendering of a natural number, most significant digit
first; structural recursion on the fuel so that closed terms reduce in the
kernel.  With fuel above `n` this is the textbook base-10 representation. -/
def natReprGoF : Nat → Nat → GoStr
  | 0, _ => []
  | f + 1, n =>
      if n < 10 then [digitChar n]
      else natReprGoF f (n / 10) ++ [digitChar (n % 10)]

/-- Decimal representation of a natural number, most significant digit
first, as `fmt.Sprintf("%d", n)` renders it (no leading zeros). -/
def natReprGo (n : Nat) : GoStr := natReprGoF (n + 1) n

/-- Rendering of a Go `int` by `fmt.Sprintf("%d", l)`. -/
def intReprGo (l : Int) : GoStr :=
  if l < 0 then '-' :: natReprGo l.natAbs else natReprGo l.natAbs

/-- Left-pad a digit string with zeros to width 2, as the precision in Go's
`%.2d` verb does. -/
def padZeros2 (ds : GoStr) : GoStr := List.replicate (2 - ds.length) '0' ++ ds

/-- Rendering of a Go `int` by `fmt.Sprintf("%.2d", l)`: the absolute value's digits
zero-padded to at least two, the sign in front. -/
def intReprP2 (l : Int) : GoStr :=
  if l < 0 then '-' :: padZeros2 (natReprGo l.natAbs)
  else padZeros2 (natReprGo l.natAbs)

/-- The routing key `fmt.Sprintf("%d_%s_%s", level, name, prefix)` built by
`getOut` and `SetOutput` (src/log.go). -/
def mkKey (level : Int) (name pre : GoStr) : GoStr :=
  intReprGo level ++ '_' :: (name ++ '_' :: pre)

/-- The `"info"` category name. -/
def infoCat : GoStr := "info".toList

/-- The `"error"` category name. -/
def errorCat : GoStr := "error".toList

/-- Collapse every run of consecutive `'/'` into a single one (a slash
followed by another slash is dropped) — the effect of `filepath.Clean`
that is relevant to the paths this package builds.  `Clean` also resolves
`.` and `..` elements and strips a trailing separator; the paths built
here end in a nonempty file name and their directory segments come from
`strings.Split(prefix, ".")`, hence contain no `'.'`, so this model is
exact for cleaned base paths. -/
def collapseSlashes : GoStr → GoStr
  | [] => []
  | [c] => [c]
  | c :: d :: rest =>
      if c = '/' ∧ d = '/' then collapseSlashes (d :: rest)
      else c :: collapseSlashes (d :: rest)

/-- Model of `filepath.Join` on Unix: drop empty elements, interleave
`'/'`, clean. -/
def filepathJoin (elems : List GoStr) : GoStr :=
  collapseSlashes (List.intercalate ['/'] (elems.filter (fun e => !e.isEmpty)))

/-- Model of `strings.TrimPrefix(s, pre)`: drop `pre` when it is a prefix
of `s`, otherwise return `s` unchanged. -/
def goTrimPre (pre s : GoStr) : GoStr :=
  if pre <+: s then s.drop pre.length else s

/-- The package-level configuration globals of src/log.go that `newOut`
reads: `program`, `pid`, `logPath`, `maxSize`, `maxBackups`, `maxAge`. -/
structure Config where
  program : GoStr
  pid : Nat
  logPath : GoStr
  maxSize : Int
  maxBackups : Int
  maxAge : Int
  deriving DecidableEq, Repr

/-- The subset of `lumberjack.Logger` fields src/log.go sets and reads.
The rotation mechanism itself is an external collaborator. -/
structure LJLogger where
  filename : GoStr
  maxSize : Int
  maxBackups : Int
  maxAge : Int
  compress : Bool
  deriving DecidableEq, Repr

/-- The dynamic type of the `out io.Writer` field of `Write`: either a
`*lumberjack.Logger` (file-backed, rotatable) or any other writer, which
the type assertions in `Write.Rotate`/`Write.Close`/`SetPath` skip. -/
inductive OutWriter where
  | lumberjack (lj : LJLogger)
  | stream (id : Nat)
  deriving DecidableEq, Repr

/-- The `Write` struct of src/log.go: a wrapper holding one `io.Writer`. -/
structure Write where
  out : OutWriter
  deriving DecidableEq, Repr

/-- The global registry `logOut map[string]*Write`, as an association list
with unique keys.  A `*Write` is allocated once per key and afterwards only
mutated in place (`SetOutput` assigns `out.out`, `SetPath` assigns `w.out`),
so a `*Write` pointer held by a `Log` is observationally the registry slot
for its key; the model therefore identifies a sink with its key's slot. -/
abbrev Registry := List (GoStr × Write)

/-- Map lookup `logOut[key]`. -/
def lookupW : Registry → GoStr → Option Write
  | [], _ => none
  | (k, w) :: rest, key => if k = key then some w else lookupW rest key

/-- In-place update of the slot for an existing `key` (the Go code mutates
the `*Write` it found there). -/
def setW (reg : Registry) (key : GoStr) (w : Write) : Registry :=
  reg.map fun p => if p.1 = key then (p.1, w) else p

/-- The literal `".log"` as a character list. -/
def dotLog : GoStr := ".log".toList

/-- The base file name built by `newOut` (src/log.go):
`fmt.Sprintf("%s_%s-%d.log", program, name, pid)` when `level == 0`, else
`fmt.Sprintf("%s_%s_%.2d-%d.log", program, name, level, pid)`. -/
def newOutBase (cfg : Config) (level : Int) (name : GoStr) : GoStr :=
  if level = 0 then
    cfg.program ++ '_' :: name ++ '-' :: natReprGo cfg.pid ++ dotLog
  else
    cfg.program ++ '_' :: name ++ '_' :: intReprP2 level ++
      '-' :: natReprGo cfg.pid ++ dotLog

/-- The full path `filepath.Join(filename...)` built by `newOut`:
`logPath`, the prefix split on `'.'`, then the base file name. -/
def newOutFilename (cfg : Config) (level : Int) (name pre : GoStr) : GoStr :=
  filepathJoin (cfg.logPath :: List.splitOn '.' pre ++ [newOutBase cfg level name])

/-- Embedding of `newOut` (src/log.go): a fresh `Write` wrapping a `lumberjack.Logger`
with the generated filename, the global size/backup/age limits and
compression on. -/
def newOut (cfg : Config) (level : Int) (name pre : GoStr) : Write :=
  ⟨.lumberjack
    { filename := newOutFilename cfg level name pre
      maxSize := cfg.maxSize
      maxBackups := cfg.maxBackups
      maxAge := cfg.maxAge
      compress := true }⟩

/-- Embedding of `getOut` (src/log.go), sequential semantics: return the registered sink
for the key if present; otherwise take the lock, assign
`logOut[key] = newOut(...)` and return `logOut[key]`.  (The interleaved
semantics of the same code is `raceStep` below.) -/
def getOut (cfg : Config) (level : Int) (name pre : GoStr) (reg : Registry) :
    Write × Registry :=
  let key := mkKey level name pre
  match lookupW reg key with
  | some w => (w, reg)
  | none =>
      let w := newOut cfg level name pre
      (w, (key, w) :: reg)

/-- The `Log` struct of src/log.go (the `pool` and `Formatter` fields are
modelled at the `Output` call boundary: the pool as the `OutState.pool`
stack, the formatter as the `GoFormatter` argument). -/
structure LogObj where
  info : Write
  err : Write
  pre : GoStr
  level : Int
  deriving DecidableEq, Repr

/-- Embedding of `New(level, prefix)` (src/log.go): resolve `p.info` at
`(level, "info", prefix)` and `p.err` at `(0, "error", prefix)`. -/
def NewLog (cfg : Config) (level : Int) (pre : GoStr) (reg : Registry) :
    LogObj × Registry :=
  let (wi, reg1) := getOut cfg level infoCat pre reg
  let (we, reg2) := getOut cfg 0 errorCat pre reg1
  ({ info := wi, err := we, pre := pre, level := level }, reg2)

/-- One half of `SetOutput` (src/log.go): if the key exists, mutate the
found `*Write`'s `out` field in place, otherwise register `&Write{w}`. -/
def setOutputOne (reg : Registry) (key : GoStr) (w : OutWriter) : Registry :=
  match lookupW reg key with
  | some _ => setW reg key ⟨w⟩
  | none => (key, ⟨w⟩) :: reg

/-- Embedding of `SetOutput(level, prefix, info, error)` (src/log.go): install `info`
under `<level>_info_<prefix>` and `error` under `<level>_error_<prefix>`. -/
def SetOutput (level : Int) (pre : GoStr) (infoW errW : OutWriter)
    (reg : Registry) : Registry :=
  let reg1 := setOutputOne reg (mkKey level infoCat pre) infoW
  setOutputOne reg1 (mkKey level errorCat pre) errW

/-- Embedding of `SetPath(s)` (src/log.go): for every registered sink whose writer is a
`*lumberjack.Logger`, replace it by one whose `Filename` is
`filepath.Join(s, strings.TrimPrefix(lj.Filename, logPath))` with the same
size/backup/age/compress settings, and close the old one; other sinks are
untouched.  Finally `logPath = s`.  Returns the new registry, the list of
lumberjack handles that were closed, and the new `logPath`. -/
def SetPath (logPath s : GoStr) (reg : Registry) :
    Registry × List LJLogger × GoStr :=
  let reg' := reg.map fun p =>
    match p.2.out with
    | .lumberjack lj =>
        (p.1, (⟨.lumberjack
          { filename := filepathJoin [s, goTrimPre logPath lj.filename]
            maxSize := lj.maxSize
            maxBackups := lj.maxBackups
            maxAge := lj.maxAge
            compress := lj.compress }⟩ : Write))
    | .stream _ => p
  let closed := reg.filterMap fun p =>
    match p.2.out with
    | .lumberjack lj => some lj
    | .stream _ => none
  (reg', closed, s)

/-- The behaviour of the external `lumberjack.Logger.Rotate`/`Close`
methods: a state transition on the logger plus an optional error.  The
package never looks at the error (both calls in src/log.go discard it), and
the theorems quantify over arbitrary `LJOps`. -/
structure LJOps where
  rotate : LJLogger → LJLogger × Option String
  close : LJLogger → LJLogger × Option String

/-- Embedding of `Write.Rotate` (src/log.go): rotate when the writer is a
`*lumberjack.Logger` (discarding its error), otherwise do nothing. -/
def writeRotate (ops : LJOps) (w : Write) : Write :=
  match w.out with
  | .lumberjack lj => ⟨.lumberjack (ops.rotate lj).1⟩
  | .stream _ => w

/-- Embedding of `Write.Close` (src/log.go): close when the writer is a
`*lumberjack.Logger` (discarding its error), otherwise do nothing. -/
def writeClose (ops : LJOps) (w : Write) : Write :=
  match w.out with
  | .lumberjack lj => ⟨.lumberjack (ops.close lj).1⟩
  | .stream _ => w

/-- Embedding of `Rotate()` (src/log.go): `w.Rotate()` on every sink. -/
def RotateAll (ops : LJOps) (reg : Registry) : Registry :=
  reg.map fun p => (p.1, writeRotate ops p.2)

/-- Embedding of `Close()` (src/log.go): `w.Close()` on every sink. -/
def CloseAll (ops : LJOps) (reg : Registry) : Registry :=
  reg.map fun p => (p.1, writeClose ops p.2)

/-! ## Interleaved semantics of `getOut` (src/log.go), for the concurrency
claim.  Two threads run `getOut` on the same key.  Each numbered program
point is one atomic step of the Go code; the critical section (map assign,
map read, deferred unlock) is a single step because the lock is held
throughout it. -/

/-- Thread-local state of one thread executing `getOut`: its program
counter and, when finished, the identity of the `*Write` it returned.
Sinks created by `newOut` during the race are numbered by creation order so
distinct allocations are distinguishable. -/
structure RaceThread where
  pc : Nat
  ret : Option Nat
  deriving DecidableEq, Repr

/-- Shared state of the two-thread `getOut` race: the registry (keys map to
sink numbers), the mutex, the number of `newOut` calls so far (also the
next sink number), and both threads. -/
structure RaceState where
  reg : List (GoStr × Nat)
  lockHeld : Bool
  created : Nat
  t0 : RaceThread
  t1 : RaceThread
  deriving DecidableEq, Repr

/-- Registry lookup for the race model. -/
def lookupN : List (GoStr × Nat) → GoStr → Option Nat
  | [], _ => none
  | (k, v) :: rest, key => if k = key then some v else lookupN rest key

/-- One step of a thread executing `getOut(key)`:
pc 0 — the unlocked read `if out, ok := logOut[key]; ok { return out }`;
pc 1 — `lock.Lock()` (no-op while the lock is held by the other thread);
pc 2 — the locked section `logOut[key] = newOut(...); return logOut[key]`
plus the deferred `lock.Unlock()`; pc 3 — returned. -/
def raceThreadStep (key : GoStr) (st : RaceState) (t : RaceThread) :
    RaceState × RaceThread :=
  match t.pc with
  | 0 =>
      match lookupN st.reg key with
      | some n => (st, { pc := 3, ret := some n })
      | none => (st, { t with pc := 1 })
  | 1 =>
      if st.lockHeld then (st, t)
      else ({ st with lockHeld := true }, { t with pc := 2 })
  | 2 =>
      let n := st.created
      ({ st with reg := (key, n) :: st.reg, created := n + 1, lockHeld := false },
       { pc := 3, ret := some n })
  | _ => (st, t)

/-- Run one step of thread 0 (`i = false`) or thread 1 (`i = true`). -/
def raceStep (key : GoStr) (st : RaceState) (i : Bool) : RaceState :=
  if i then
    let (st', t') := raceThreadStep key st st.t1
    { st' with t1 := t' }
  else
    let (st', t') := raceThreadStep key st st.t0
    { st' with t0 := t' }

/-- Run a schedule of thread steps from a state. -/
def raceRun (key : GoStr) (st : RaceState) (sched : List Bool) : RaceState :=
  sched.foldl (raceStep key) st

/-- Both threads about to call `getOut` on an empty registry. -/
def raceInit : RaceState :=
  { reg := [], lockHeld := false, created := 0,
    t0 := { pc := 0, ret := none }, t1 := { pc := 0, ret := none } }

/-- Embedding of `Log.Print` (src/log.go): `p.Output(p.info, a...)`.  The
returned `Write` is the destination writer the call hands to `Output`;
`OutState.sinkOut` records what that writer receives. -/
def PrintCall (G : Int) (lg : LogObj) (fmtr : GoFormatter) (now : String)
    (a : List GoVal) (st : OutState) : (OutState × Option Entry) × Write :=
  (Output G lg.level fmtr now a st, lg.info)

/-- Embedding of `Log.Printf` (src/log.go):
`p.Outputf(p.info, format, a...)`. -/
def PrintfCall (G : Int) (lg : LogObj) (fmtr : GoFormatter)
    (sprintf : String → List GoVal → String) (now format : String)
    (a : List GoVal) (st : OutState) : (OutState × Option Entry) × Write :=
  (Outputf G lg.level fmtr sprintf now format a st, lg.info)

/-- Embedding of `Log.Error` (src/log.go): `p.Output(p.err, args...)`.
The destination is the logger's error sink; the gate inside `Output` still
compares the global level against `p.Level`. -/
def ErrorCall (G : Int) (lg : LogObj) (fmtr : GoFormatter) (now : String)
    (a : List GoVal) (st : OutState) : (OutState × Option Entry) × Write :=
  (Output G lg.level fmtr now a st, lg.err)

/-- Embedding of `Log.Errorf` (src/log.go):
`p.Outputf(p.err, format, a...)`. -/
def ErrorfCall (G : Int) (lg : LogObj) (fmtr : GoFormatter)
    (sprintf : String → List GoVal → String) (now format : String)
    (a : List GoVal) (st : OutState) : (OutState × Option Entry) × Write :=
  (Outputf G lg.level fmtr sprintf now format a st, lg.err)

/-! ## Specification-side definitions

These follow the spec's words, not the source, and exist only to be
compared with the source-derived definitions above. -/

/-- Zero-padding of a non-negative level "to two digits", as the spec's
file-naming convention words it. -/
def specPad2 (n : Nat) : GoStr :=
  if n < 10 then '0' :: natReprGo n else natReprGo n

/-- The base file name of the spec's naming convention:
program-name, category, the zero-padded level only when non-zero, pid. -/
def specLogFileBase (program category : GoStr) (pid : Nat) (level : Int) :
    GoStr :=
  program ++ ['_'] ++ category ++
    (if level = 0 then [] else ['_'] ++ specPad2 level.toNat) ++
    ['-'] ++ natReprGo pid ++ dotLog

/-- The generated path of the spec's naming convention: base path, the
prefix split on dots as subdirectories, then the base file name. -/
def specLogFilePath (basePath program category : GoStr) (pid : Nat)
    (level : Int) (pre : GoStr) : GoStr :=
  filepathJoin (basePath :: List.splitOn '.' pre ++
    [specLogFileBase program category pid level])

/-! ## Helper lemmas on decimal rendering and keys -/

/-- The fuel argument of `natReprGoF` is irrelevant once above `n`. -/
lemma natReprGoF_congr :
    ∀ (f₁ f₂ n : Nat), n < f₁ → n < f₂ → natReprGoF f₁ n = natReprGoF f₂ n := by
  intro f₁
  induction f₁ with
  | zero => intro f₂ n h _; omega
  | succ f ih =>
    intro f₂ n h₁ h₂
    cases f₂ with
    | zero => omega
    | succ f₂ =>
      simp only [natReprGoF]
      by_cases h : n < 10
      · simp [h]
      · simp only [h, if_false]
        have hd : n / 10 < n := Nat.div_lt_self (by omega) (by omega)
        rw [ih f₂ (n / 10) (by omega) (by omega)]

/-- Evaluation of `natReprGo` below 10. -/
lemma natReprGo_lt10 {n : Nat} (h : n < 10) : natReprGo n = [digitChar n] := by
  unfold natReprGo
  simp only [natReprGoF]
  simp [h]

/-- Recursion equation of `natReprGo` at 10 and above. -/
lemma natReprGo_ge10 {n : Nat} (h : 10 ≤ n) :
    natReprGo n = natReprGo (n / 10) ++ [digitChar (n % 10)] := by
  unfold natReprGo
  conv_lhs => rw [show n + 1 = n + 1 from rfl]
  simp only [natReprGoF]
  rw [if_neg (by omega)]
  have hd : n / 10 < n := Nat.div_lt_self (by omega) (by omega)
  rw [natReprGoF_congr n (n / 10 + 1) (n / 10) (by omega) (by omega)]
  simp only [natReprGoF]

/-- Digit characters are never an underscore. -/
lemma digitChar_ne_underscore (n : Nat) : digitChar n ≠ '_' := by
  unfold digitChar; split <;> decide

/-- A digit string is never empty. -/
lemma natReprGo_ne_nil (n : Nat) : natReprGo n ≠ [] := by
  by_cases h : n < 10
  · rw [natReprGo_lt10 h]; simp
  · rw [natReprGo_ge10 (by omega)]; simp

/-- Digit strings contain no underscore. -/
lemma natReprGo_no_underscore (n : Nat) : '_' ∉ natReprGo n := by
  induction n using Nat.strong_induction_on with
  | _ n ih =>
    by_cases h : n < 10
    · rw [natReprGo_lt10 h]
      simp only [List.mem_singleton]
      exact fun hc => digitChar_ne_underscore n hc.symm
    · rw [natReprGo_ge10 (by omega)]
      simp only [List.mem_append, List.mem_singleton]
      push_neg
      exact ⟨ih _ (Nat.div_lt_self (by omega) (by omega)),
        fun hc => digitChar_ne_underscore _ hc.symm⟩

/-- The rendering of a Go `int` contains no underscore. -/
lemma intReprGo_no_underscore (l : Int) : '_' ∉ intReprGo l := by
  unfold intReprGo
  split
  · simp only [List.mem_cons]
    push_neg
    exact ⟨by decide, natReprGo_no_underscore _⟩
  · exact natReprGo_no_underscore _

/-- Only zero renders as the single digit `'0'` (no leading zeros). -/
lemma natReprGo_eq_single_zero {n : Nat} (h : natReprGo n = ['0']) : n = 0 := by
  by_cases hlt : n < 10
  · rw [natReprGo_lt10 hlt] at h
    have hd : digitChar n = '0' := by injection h
    interval_cases n <;> revert hd <;> decide
  · rw [natReprGo_ge10 (by omega)] at h
    cases hx : natReprGo (n / 10) with
    | nil => exact absurd hx (natReprGo_ne_nil _)
    | cons c cs => rw [hx] at h; simp at h

/-- Rendering of the Go `int` zero. -/
lemma intReprGo_zero : intReprGo 0 = ['0'] := by decide

/-- Only zero renders as `"0"`. -/
lemma intReprGo_eq_zero {l : Int} (h : intReprGo l = ['0']) : l = 0 := by
  unfold intReprGo at h
  split at h
  · injection h with h1 _
    exact absurd h1 (by decide)
  · have := natReprGo_eq_single_zero h
    omega

/-- Splitting at the first underscore: two underscore-separated strings
whose left parts contain no underscore agree part-wise. -/
lemma append_underscore_inj :
    ∀ (as : GoStr) (cs bs ds : GoStr), '_' ∉ as → '_' ∉ cs →
      as ++ '_' :: bs = cs ++ '_' :: ds → as = cs ∧ bs = ds := by
  intro as
  induction as with
  | nil =>
    intro cs bs ds _ hc h
    cases cs with
    | nil => simpa using h
    | cons c cs' =>
      simp only [List.nil_append, List.cons_append, List.cons.injEq] at h
      exact absurd (h.1 ▸ List.mem_cons_self c cs') hc
  | cons a as' ih =>
    intro cs bs ds ha hc h
    cases cs with
    | nil =>
      simp only [List.cons_append, List.nil_append, List.cons.injEq] at h
      exact absurd (h.1 ▸ List.mem_cons_self a as') ha
    | cons c cs' =>
      simp only [List.cons_append, List.cons.injEq] at h
      obtain ⟨rfl, h2⟩ := h
      have hx := ih cs' bs ds (fun hm => ha (List.mem_cons_of_mem _ hm))
        (fun hm => hc (List.mem_cons_of_mem _ hm)) h2
      exact ⟨by rw [hx.1], hx.2⟩

/-- Routing keys determine their three components (for underscore-free
category names such as `"info"` and `"error"`). -/
lemma mkKey_inj {l l' : Int} {c c' p p' : GoStr} (hc : '_' ∉ c)
    (hc' : '_' ∉ c') (h : mkKey l c p = mkKey l' c' p') :
    intReprGo l = intReprGo l' ∧ c = c' ∧ p = p' := by
  unfold mkKey at h
  obtain ⟨h1, h2⟩ := append_underscore_inj _ _ _ _
    (intReprGo_no_underscore l) (intReprGo_no_underscore l') h
  obtain ⟨h3, h4⟩ := append_underscore_inj _ _ _ _ hc hc' h2
  exact ⟨h1, h3, h4⟩

/-- A key at a non-zero level never collides with a key at level 0. -/
lemma mkKey_ne_of_ne_zero {L : Int} (hL : L ≠ 0) {c c' : GoStr}
    (hc : '_' ∉ c) (hc' : '_' ∉ c') (p q : GoStr) :
    mkKey L c p ≠ mkKey 0 c' q := by
  intro h
  have h1 := (mkKey_inj hc hc' h).1
  rw [intReprGo_zero] at h1
  exact hL (intReprGo_eq_zero h1)

/-- An info key never collides with an error key. -/
lemma mkKey_info_ne_error (l l' : Int) (p q : GoStr) :
    mkKey l infoCat p ≠ mkKey l' errorCat q := by
  intro h
  have hx := @mkKey_inj l l' infoCat errorCat p q (by decide) (by decide) h
  exact absurd hx.2.1 (by decide)

/-! ## Helper lemmas on the registry and paths -/

/-- Unfolding of `setW` on a cons cell. -/
lemma setW_cons (k0 : GoStr) (w0 : Write) (rest : Registry) (k : GoStr)
    (w : Write) :
    setW ((k0, w0) :: rest) k w =
      (if k0 = k then (k0, w) else (k0, w0)) :: setW rest k w := rfl

/-- Updating one key leaves lookups of other keys unchanged. -/
lemma lookupW_setW_ne {reg : Registry} {k k' : GoStr} {w : Write}
    (h : k ≠ k') : lookupW (setW reg k w) k' = lookupW reg k' := by
  induction reg with
  | nil => rfl
  | cons p rest ih =>
    obtain ⟨k0, w0⟩ := p
    rw [setW_cons]
    by_cases hp : k0 = k
    · rw [if_pos hp]
      simp only [lookupW]
      have hk' : ¬ k0 = k' := by rw [hp]; exact h
      rw [if_neg hk', if_neg hk']
      exact ih
    · rw [if_neg hp]
      simp only [lookupW]
      by_cases hp' : k0 = k'
      · rw [if_pos hp', if_pos hp']
      · rw [if_neg hp', if_neg hp']
        exact ih

/-- Updating an existing key makes lookups of it return the new value. -/
lemma lookupW_setW_self {reg : Registry} {k : GoStr} {w : Write}
    (h : (lookupW reg k).isSome) : lookupW (setW reg k w) k = some w := by
  induction reg with
  | nil => simp [lookupW] at h
  | cons p rest ih =>
    obtain ⟨k0, w0⟩ := p
    rw [setW_cons]
    by_cases hp : k0 = k
    · rw [if_pos hp]
      simp only [lookupW]
      rw [if_pos hp]
    · rw [if_neg hp]
      simp only [lookupW]
      rw [if_neg hp]
      simp only [lookupW, if_neg hp] at h
      exact ih h

/-- Installing a writer under a key makes lookups of it return it. -/
lemma lookupW_setOutputOne_self (reg : Registry) (k : GoStr) (w : OutWriter) :
    lookupW (setOutputOne reg k w) k = some ⟨w⟩ := by
  unfold setOutputOne
  cases hl : lookupW reg k with
  | none => simp [lookupW]
  | some w0 => exact lookupW_setW_self (by simp [hl])

/-- Installing a writer under a key leaves other keys unchanged. -/
lemma lookupW_setOutputOne_ne (reg : Registry) {k k' : GoStr}
    (w : OutWriter) (h : k ≠ k') :
    lookupW (setOutputOne reg k w) k' = lookupW reg k' := by
  unfold setOutputOne
  cases lookupW reg k with
  | none => simp [lookupW, h]
  | some w0 => exact lookupW_setW_ne h

/-- Resolving a key registers the returned sink under it. -/
lemma getOut_lookup_self (cfg : Config) (l : Int) (n p : GoStr)
    (reg : Registry) :
    lookupW (getOut cfg l n p reg).2 (mkKey l n p) =
      some (getOut cfg l n p reg).1 := by
  unfold getOut
  cases hl : lookupW reg (mkKey l n p) with
  | some w => simp [hl]
  | none => simp [hl, lookupW]

/-- Resolving one key does not change lookups of other keys. -/
lemma getOut_lookup_ne (cfg : Config) (l : Int) (n p : GoStr)
    (reg : Registry) {k : GoStr} (h : mkKey l n p ≠ k) :
    lookupW (getOut cfg l n p reg).2 k = lookupW reg k := by
  unfold getOut
  cases hl : lookupW reg (mkKey l n p) with
  | some w => simp [hl]
  | none => simp [hl, lookupW, h]

/-- Zero-padding the digits of `n` coincides with the spec's wording. -/
lemma padZeros2_natReprGo (n : Nat) : padZeros2 (natReprGo n) = specPad2 n := by
  unfold padZeros2 specPad2
  by_cases h : n < 10
  · rw [if_pos h, natReprGo_lt10 h]
    simp [List.replicate]
  · rw [if_neg h]
    have h2 : 2 ≤ (natReprGo n).length := by
      rw [natReprGo_ge10 (by omega)]
      cases hx : natReprGo (n / 10) with
      | nil => exact absurd hx (natReprGo_ne_nil _)
      | cons c cs => simp [hx]
    rw [show 2 - (natReprGo n).length = 0 by omega]
    simp

/-- An extra slash inside an existing separator run is collapsed away. -/
lemma collapseSlashes_dup (a b : GoStr) :
    collapseSlashes (a ++ '/' :: '/' :: b) = collapseSlashes (a ++ '/' :: b) := by
  induction a with
  | nil => simp [collapseSlashes]
  | cons c a' ih =>
    cases a' with
    | nil =>
      simp only [List.cons_append, List.nil_append]
      by_cases hc : c = '/'
      · simp [collapseSlashes, hc]
      · simp [collapseSlashes, hc]
    | cons d a'' =>
      simp only [List.cons_append] at ih ⊢
      by_cases hc : c = '/' ∧ d = '/'
      · obtain ⟨hc1, hc2⟩ := hc
        subst hc1
        subst hc2
        simp only [collapseSlashes, if_pos (And.intro rfl rfl)]
        exact ih
      · simp only [collapseSlashes, if_neg hc]
        rw [ih]

/-- Trimming a literal prefix leaves the remainder. -/
lemma goTrimPre_append (p r : GoStr) : goTrimPre p (p ++ r) = r := by
  unfold goTrimPre
  rw [if_pos ⟨r, rfl⟩]
  simp

/-- Joining a new base with a rooted remainder concatenates them, for
remainders whose concatenation is already clean. -/
lemma filepathJoin_rooted (s rel : GoStr)
    (hclean : collapseSlashes (s ++ '/' :: rel) = s ++ '/' :: rel) :
    filepathJoin [s, '/' :: rel] = s ++ '/' :: rel := by
  unfold filepathJoin
  cases s with
  | nil =>
    simp only [List.filter, List.isEmpty_nil, Bool.not_true, List.isEmpty_cons,
      Bool.not_false, List.intercalate]
    simpa using hclean
  | cons c s' =>
    have : List.filter (fun e => !e.isEmpty) [c :: s', '/' :: rel] =
        [c :: s', '/' :: rel] := by simp
    rw [this]
    have hi : List.intercalate ['/'] [c :: s', '/' :: rel] =
        (c :: s') ++ '/' :: '/' :: rel := by
      simp [List.intercalate]
    rw [hi, collapseSlashes_dup, hclean]

/-! ## Helper lemmas on the output path -/

/-- The entry handed to the formatter is the one just populated. -/
lemma formatAndRelease_snd (fmtr : GoFormatter) (e : Entry)
    (rest : List Entry) (st : OutState) :
    (formatAndRelease fmtr e rest st).2 = some e := by
  unfold formatAndRelease
  cases fmtr e <;> rfl

/-- Reduction of `Output` when the gate passes. -/
lemma Output_of_ge {G level : Int} (h : G ≥ level) (fmtr : GoFormatter)
    (now : String) (a : List GoVal) (st : OutState) :
    Output G level fmtr now a st =
      formatAndRelease fmtr ⟨now, outputMessage a⟩ (poolGet st.pool).2 st := by
  unfold Output
  rw [if_pos h]

/-- Reduction of `Output` when the gate blocks: nothing at all happens. -/
lemma Output_of_lt {G level : Int} (h : ¬ G ≥ level) (fmtr : GoFormatter)
    (now : String) (a : List GoVal) (st : OutState) :
    Output G level fmtr now a st = (st, none) := by
  unfold Output
  rw [if_neg h]

/-- Reduction of `Outputf` when the gate passes. -/
lemma Outputf_of_ge {G level : Int} (h : G ≥ level) (fmtr : GoFormatter)
    (spf : String → List GoVal → String) (now format : String)
    (a : List GoVal) (st : OutState) :
    Outputf G level fmtr spf now format a st =
      formatAndRelease fmtr ⟨now, .str (spf format a)⟩ (poolGet st.pool).2 st := by
  unfold Outputf
  rw [if_pos h]

/-- Reduction of `Outputf` when the gate blocks. -/
lemma Outputf_of_lt {G level : Int} (h : ¬ G ≥ level) (fmtr : GoFormatter)
    (spf : String → List GoVal → String) (now format : String)
    (a : List GoVal) (st : OutState) :
    Outputf G level fmtr spf now format a st = (st, none) := by
  unfold Outputf
  rw [if_neg h]

/-! ## Claim theorems -/

/-- C1: a Print/Printf call on a Logger is emitted — the formatter is
invoked on an entry bound for the logger's info sink — if and only if the
global threshold `G` is at least the logger's level; when `G` is below the
level the call performs no work at all (the state, pool included, is
returned untouched and nothing is written anywhere), and when it passes
and the formatter succeeds the formatted bytes are appended to the info
sink's output. -/
theorem print_emitted_iff_global_ge_level (G : Int) (lg : LogObj)
    (fmtr : GoFormatter) (spf : String → List GoVal → String)
    (now format : String) (a : List GoVal) (st : OutState) :
    ((PrintCall G lg fmtr now a st).1.2.isSome ↔ G ≥ lg.level) ∧
    ((PrintfCall G lg fmtr spf now format a st).1.2.isSome ↔ G ≥ lg.level) ∧
    (PrintCall G lg fmtr now a st).2 = lg.info ∧
    (PrintfCall G lg fmtr spf now format a st).2 = lg.info ∧
    (¬ G ≥ lg.level →
      (PrintCall G lg fmtr now a st).1 = (st, none) ∧
      (PrintfCall G lg fmtr spf now format a st).1 = (st, none)) ∧
    (G ≥ lg.level → ∀ bytes, fmtr ⟨now, outputMessage a⟩ = .ok bytes →
      (PrintCall G lg fmtr now a st).1.1.sinkOut = st.sinkOut ++ [bytes]) := by
  refine ⟨?_, ?_, rfl, rfl, ?_, ?_⟩
  · unfold PrintCall
    by_cases h : G ≥ lg.level
    · rw [Output_of_ge h, formatAndRelease_snd]
      simp [h]
    · rw [Output_of_lt h]
      simp [h]
  · unfold PrintfCall
    by_cases h : G ≥ lg.level
    · rw [Outputf_of_ge h, formatAndRelease_snd]
      simp [h]
    · rw [Outputf_of_lt h]
      simp [h]
  · intro h
    unfold PrintCall PrintfCall
    rw [Output_of_lt h, Outputf_of_lt h]
    exact ⟨rfl, rfl⟩
  · intro h bytes hb
    unfold PrintCall
    rw [Output_of_ge h]
    unfold formatAndRelease
    rw [hb]

/-- Witness for C1 at a concrete logger, formatter and state. -/
theorem print_emitted_iff_global_ge_level_witness :
    ¬ (0 : Int) ≥ 1 ∧
    (PrintCall 0 ⟨⟨.stream 0⟩, ⟨.stream 1⟩, [], 1⟩ (fun _ => .ok "B") "T"
      [.strVal "m"] ⟨[], [], []⟩).1 = (⟨[], [], []⟩, none) ∧
    (0 : Int) ≥ 0 ∧
    (PrintCall 0 ⟨⟨.stream 0⟩, ⟨.stream 1⟩, [], 0⟩ (fun _ => .ok "B") "T"
      [.strVal "m"] ⟨[], [], []⟩).1.1.sinkOut = [] ++ ["B"] := by
  refine ⟨by norm_num, ?_, by norm_num, ?_⟩
  · exact ((print_emitted_iff_global_ge_level 0
      ⟨⟨.stream 0⟩, ⟨.stream 1⟩, [], 1⟩ (fun _ => .ok "B") (fun f _ => f) "T"
      "F" [.strVal "m"] ⟨[], [], []⟩).2.2.2.2.1 (by norm_num)).1
  · exact (print_emitted_iff_global_ge_level 0
      ⟨⟨.stream 0⟩, ⟨.stream 1⟩, [], 0⟩ (fun _ => .ok "B") (fun f _ => f) "T"
      "F" [.strVal "m"] ⟨[], [], []⟩).2.2.2.2.2 (by norm_num) "B" rfl

/-- C5: the entry a formatter observes always carries this very call's
time stamp and message — both fields are overwritten between the pool
`Get` and the `Format` call — whatever stale values the pooled entries
(the arbitrary `st.pool`) contain from previous cycles.  Stated for all
four call paths. -/
theorem entry_fields_overwritten_before_format (G : Int) (lg : LogObj)
    (fmtr : GoFormatter) (spf : String → List GoVal → String)
    (now format : String) (a : List GoVal) (st : OutState) :
    (PrintCall G lg fmtr now a st).1.2 =
      (if G ≥ lg.level then some ⟨now, outputMessage a⟩ else none) ∧
    (ErrorCall G lg fmtr now a st).1.2 =
      (if G ≥ lg.level then some ⟨now, outputMessage a⟩ else none) ∧
    (PrintfCall G lg fmtr spf now format a st).1.2 =
      (if G ≥ lg.level then some ⟨now, .str (spf format a)⟩ else none) ∧
    (ErrorfCall G lg fmtr spf now format a st).1.2 =
      (if G ≥ lg.level then some ⟨now, .str (spf format a)⟩ else none) := by
  by_cases h : G ≥ lg.level
  · unfold PrintCall ErrorCall PrintfCall ErrorfCall
    rw [Output_of_ge h, Outputf_of_ge h, formatAndRelease_snd,
      formatAndRelease_snd]
    simp only [if_pos h]
    exact ⟨trivial, trivial, trivial, trivial⟩
  · unfold PrintCall ErrorCall PrintfCall ErrorfCall
    rw [Output_of_lt h, Outputf_of_lt h]
    simp only [if_neg h]
    exact ⟨trivial, trivial, trivial, trivial⟩

/-- C4: on the non-formatted path each positional argument is normalized
according to the type switch — error values to their message text,
stringer values to their string form, strings passed through, everything
else kept as-is — one argument is stored bare, two or more as the ordered
normalized sequence, and an emitted call hands the formatter exactly that
message. -/
theorem output_argument_normalization :
    (∀ m, normalizeArg (.errVal m) = .str m) ∧
    (∀ s, normalizeArg (.stringerVal s) = .str s) ∧
    (∀ s, normalizeArg (.strVal s) = .str s) ∧
    (∀ t, normalizeArg (.otherVal t) = .val (.otherVal t)) ∧
    (∀ v, outputMessage [v] = normalizeArg v) ∧
    (∀ a : List GoVal, 2 ≤ a.length →
      outputMessage a = .list (a.map normalizeArg)) ∧
    (∀ (G : Int) (lg : LogObj) (fmtr : GoFormatter) (now : String)
      (a : List GoVal) (st : OutState), G ≥ lg.level →
      (PrintCall G lg fmtr now a st).1.2 = some ⟨now, outputMessage a⟩ ∧
      (ErrorCall G lg fmtr now a st).1.2 = some ⟨now, outputMessage a⟩) := by
  refine ⟨fun _ => rfl, fun _ => rfl, fun _ => rfl, fun _ => rfl,
    fun _ => rfl, ?_, ?_⟩
  · intro a h
    match a with
    | [] => simp at h
    | [_] => simp at h
    | _ :: _ :: _ => rfl
  · intro G lg fmtr now a st h
    unfold PrintCall ErrorCall
    rw [Output_of_ge h, formatAndRelease_snd]
    exact ⟨rfl, rfl⟩

/-- Witness for C4 on concrete arguments of each kind. -/
theorem output_argument_normalization_witness :
    2 ≤ ([.errVal "E", .stringerVal "S", .strVal "T", .otherVal 7] :
        List GoVal).length ∧
    outputMessage [.errVal "E", .stringerVal "S", .strVal "T", .otherVal 7] =
      .list [.str "E", .str "S", .str "T", .val (.otherVal 7)] ∧
    (0 : Int) ≥ 0 ∧
    (PrintCall 0 ⟨⟨.stream 0⟩, ⟨.stream 1⟩, [], 0⟩ (fun _ => .ok "B") "T"
      [.errVal "E"] ⟨[⟨"stale", .str "old"⟩], [], []⟩).1.2 =
      some ⟨"T", outputMessage [.errVal "E"]⟩ := by
  refine ⟨by norm_num, ?_, by norm_num, ?_⟩
  · exact output_argument_normalization.2.2.2.2.2.1 _ (by norm_num)
  · exact (output_argument_normalization.2.2.2.2.2.2 0
      ⟨⟨.stream 0⟩, ⟨.stream 1⟩, [], 0⟩ (fun _ => .ok "B") "T" [.errVal "E"]
      ⟨[⟨"stale", .str "old"⟩], [], []⟩ (by norm_num)).1

/-- C9: when the formatter fails on an emitted call, the failure text is
appended to the fallback stderr stream only — the primary sink receives
nothing — the freshly populated entry is still released back onto the
pool, and the call returns its state normally (all four call paths are
total functions of their inputs). -/
theorem formatter_error_reported_to_fallback (G : Int) (lg : LogObj)
    (fmtr : GoFormatter) (spf : String → List GoVal → String)
    (now format : String) (a : List GoVal) (st : OutState) (err errf : String)
    (hgate : G ≥ lg.level)
    (hfail : fmtr ⟨now, outputMessage a⟩ = .fail err)
    (hfailf : fmtr ⟨now, .str (spf format a)⟩ = .fail errf) :
    (PrintCall G lg fmtr now a st).1.1 =
      ⟨⟨now, outputMessage a⟩ :: (poolGet st.pool).2, st.sinkOut,
        st.stderrOut ++ [failText err]⟩ ∧
    (ErrorCall G lg fmtr now a st).1.1 =
      ⟨⟨now, outputMessage a⟩ :: (poolGet st.pool).2, st.sinkOut,
        st.stderrOut ++ [failText err]⟩ ∧
    (PrintfCall G lg fmtr spf now format a st).1.1 =
      ⟨⟨now, .str (spf format a)⟩ :: (poolGet st.pool).2, st.sinkOut,
        st.stderrOut ++ [failText errf]⟩ ∧
    (ErrorfCall G lg fmtr spf now format a st).1.1 =
      ⟨⟨now, .str (spf format a)⟩ :: (poolGet st.pool).2, st.sinkOut,
        st.stderrOut ++ [failText errf]⟩ := by
  unfold PrintCall ErrorCall PrintfCall ErrorfCall
  rw [Output_of_ge hgate, Outputf_of_ge hgate]
  unfold formatAndRelease
  rw [hfail, hfailf]
  exact ⟨rfl, rfl, rfl, rfl⟩

/-- Witness for C9 at a concrete always-failing formatter. -/
theorem formatter_error_reported_to_fallback_witness :
    (PrintCall 0 ⟨⟨.stream 0⟩, ⟨.stream 1⟩, [], 0⟩ (fun _ => .fail "boom")
      "T" [.strVal "m"] ⟨[], ["old"], []⟩).1.1 =
      ⟨[⟨"T", outputMessage [.strVal "m"]⟩], ["old"],
        [] ++ [failText "boom"]⟩ :=
  (formatter_error_reported_to_fallback 0 ⟨⟨.stream 0⟩, ⟨.stream 1⟩, [], 0⟩
    (fun _ => .fail "boom") (fun f _ => f) "T" "F" [.strVal "m"]
    ⟨[], ["old"], []⟩ "boom" "boom" (by norm_num) rfl rfl).1

/-- The gate of an `Error` call passes exactly when `G ≥ p.Level`. -/
lemma errorCall_isSome_iff (G : Int) (lg : LogObj) (fmtr : GoFormatter)
    (now : String) (a : List GoVal) (st : OutState) :
    (ErrorCall G lg fmtr now a st).1.2.isSome ↔ G ≥ lg.level := by
  unfold ErrorCall
  by_cases h : G ≥ lg.level
  · rw [Output_of_ge h, formatAndRelease_snd]
    simp [h]
  · rw [Output_of_lt h]
    simp [h]

/-- The gate of an `Errorf` call passes exactly when `G ≥ p.Level`. -/
lemma errorfCall_isSome_iff (G : Int) (lg : LogObj) (fmtr : GoFormatter)
    (spf : String → List GoVal → String) (now format : String)
    (a : List GoVal) (st : OutState) :
    (ErrorfCall G lg fmtr spf now format a st).1.2.isSome ↔ G ≥ lg.level := by
  unfold ErrorfCall
  by_cases h : G ≥ lg.level
  · rw [Outputf_of_ge h, formatAndRelease_snd]
    simp [h]
  · rw [Outputf_of_lt h]
    simp [h]

/-- C2 (counterexample): the claim says an `Error` call is emitted iff
`G >= 0`; but for a Logger built by `New(1, "")`, at global threshold
`G = 0` — where `G >= 0` holds — the `Error` call is gated out, because
`Output` compares `G` against the Logger's own `Level`, not `0`. -/
theorem error_emitted_iff_nonneg_counterexample :
    (ErrorCall 0
      (NewLog ⟨"p".toList, 42, "/l".toList, 30, 0, 7⟩ 1 [] []).1
      (fun _ => .ok "B") "T" [.strVal "m"] ⟨[], [], []⟩).1.2 = none ∧
    (0 : Int) ≥ 0 := by
  refine ⟨?_, by norm_num⟩
  rfl

/-- C2 (amended): an `Error`/`Errorf` call on any Logger is routed to the
error sink that `New` resolved under the level-0 error key for its prefix
— regardless of the Logger's own Level — and it is emitted if and only if
`G ≥ Level` (the same gate as every other call), not iff `G ≥ 0`. -/
theorem error_routed_to_level0_sink_gated_by_level (cfg : Config)
    (G level : Int) (pre : GoStr) (reg : Registry) (fmtr : GoFormatter)
    (spf : String → List GoVal → String) (now format : String)
    (a : List GoVal) (st : OutState) :
    lookupW (NewLog cfg level pre reg).2 (mkKey 0 errorCat pre) =
      some (NewLog cfg level pre reg).1.err ∧
    (NewLog cfg level pre reg).1.level = level ∧
    (ErrorCall G (NewLog cfg level pre reg).1 fmtr now a st).2 =
      (NewLog cfg level pre reg).1.err ∧
    (ErrorfCall G (NewLog cfg level pre reg).1 fmtr spf now format a st).2 =
      (NewLog cfg level pre reg).1.err ∧
    ((ErrorCall G (NewLog cfg level pre reg).1 fmtr now a st).1.2.isSome ↔
      G ≥ level) ∧
    ((ErrorfCall G (NewLog cfg level pre reg).1 fmtr spf now format a
      st).1.2.isSome ↔ G ≥ level) := by
  refine ⟨?_, rfl, rfl, rfl, ?_, ?_⟩
  · exact getOut_lookup_self cfg 0 errorCat pre
      (getOut cfg level infoCat pre reg).2
  · exact errorCall_isSome_iff G (NewLog cfg level pre reg).1 fmtr now a st
  · exact errorfCall_isSome_iff G (NewLog cfg level pre reg).1 fmtr spf now
      format a st

/-- C3 (divergence witness): two threads resolving the same missing key —
each one past the optimistic unlocked read before either inserts — both
enter the locked section, which inserts unconditionally without
re-checking the map.  Both construct a sink (`created = 2`) and the two
callers end up holding two different sinks for the same key, while a
sequential execution of the same two calls constructs exactly one.  The
schedule runs thread 0's read, thread 1's read, then each thread's lock
and locked section in turn. -/
theorem getOut_double_construction_under_race :
    (raceRun (mkKey 3 infoCat []) raceInit
      [false, true, false, false, true, true]).created = 2 ∧
    (raceRun (mkKey 3 infoCat []) raceInit
      [false, true, false, false, true, true]).t0.ret = some 0 ∧
    (raceRun (mkKey 3 infoCat []) raceInit
      [false, true, false, false, true, true]).t1.ret = some 1 ∧
    lookupN (raceRun (mkKey 3 infoCat []) raceInit
      [false, true, false, false, true, true]).reg (mkKey 3 infoCat []) =
      some 1 ∧
    (raceRun (mkKey 3 infoCat []) raceInit
      [false, false, false, true]).created = 1 ∧
    (raceRun (mkKey 3 infoCat []) raceInit [false, false, false, true]).t0.ret
      = (raceRun (mkKey 3 infoCat []) raceInit
          [false, false, false, true]).t1.ret := by
  decide

/-- Go's `%.2d` agrees with the spec's zero-padding for non-negative
levels. -/
lemma intReprP2_nonneg {level : Int} (h : 0 ≤ level) :
    intReprP2 level = specPad2 level.toNat := by
  unfold intReprP2
  rw [if_neg (by omega), show level.natAbs = level.toNat by omega]
  exact padZeros2_natReprGo _

/-- The base file name built by `newOut` matches the spec's formula. -/
lemma newOutBase_eq_spec {cfg : Config} {level : Int} (h : 0 ≤ level)
    (name : GoStr) :
    newOutBase cfg level name =
      specLogFileBase cfg.program name cfg.pid level := by
  unfold newOutBase specLogFileBase
  by_cases h0 : level = 0
  · rw [if_pos h0, if_pos h0]
    simp
  · rw [if_neg h0, if_neg h0, ← intReprP2_nonneg h]
    simp

/-- C6: the generated log file path of a lazily created file sink is
`basePath/<prefix dots as subdirectories>/<program>_<category>-<pid>.log`
at level 0 and
`basePath/…/<program>_<category>_<level zero-padded to two digits>-<pid>.log`
at non-zero levels — the level suffix appears only for non-zero levels. -/
theorem newOut_filename_matches_naming_convention (cfg : Config)
    (level : Int) (name pre : GoStr) (h : 0 ≤ level) :
    newOutFilename cfg level name pre =
      specLogFilePath cfg.logPath cfg.program name cfg.pid level pre := by
  unfold newOutFilename specLogFilePath
  rw [newOutBase_eq_spec h]

/-- Witness for C6 at concrete levels 0 and 3, including the fully
evaluated paths. -/
theorem newOut_filename_matches_naming_convention_witness :
    (0 : Int) ≤ 3 ∧
    newOutFilename ⟨"prog".toList, 42, "/tmp/logs".toList, 30, 0, 7⟩ 3
      infoCat "a.b".toList =
      specLogFilePath "/tmp/logs".toList "prog".toList infoCat 42 3
        "a.b".toList ∧
    newOutFilename ⟨"prog".toList, 42, "/tmp/logs".toList, 30, 0, 7⟩ 3
      infoCat "a.b".toList = "/tmp/logs/a/b/prog_info_03-42.log".toList ∧
    newOutFilename ⟨"prog".toList, 42, "/tmp/logs".toList, 30, 0, 7⟩ 0
      errorCat "".toList = "/tmp/logs/prog_error-42.log".toList := by
  refine ⟨by norm_num, ?_, by decide, by decide⟩
  exact newOut_filename_matches_naming_convention _ 3 _ _ (by norm_num)

/-- C7: `SetPath` gives every file-backed sink a replacement whose
filename is the old one with the old base path replaced by the new path,
with all rotation settings preserved, and closes the old handle; sinks
whose writer is not file-backed stay untouched and registered, and every
key stays registered. -/
theorem setPath_relocates_rotatable_sinks (logPath s : GoStr)
    (reg : Registry) (k k' : GoStr) (lj : LJLogger) (rel : GoStr) (sid : Nat)
    (hmem : (k, (⟨.lumberjack lj⟩ : Write)) ∈ reg)
    (hfn : lj.filename = logPath ++ '/' :: rel)
    (hclean : collapseSlashes (s ++ '/' :: rel) = s ++ '/' :: rel)
    (hstream : (k', (⟨.stream sid⟩ : Write)) ∈ reg) :
    (SetPath logPath s reg).1.map Prod.fst = reg.map Prod.fst ∧
    (k, (⟨.lumberjack
      { filename := s ++ '/' :: rel
        maxSize := lj.maxSize
        maxBackups := lj.maxBackups
        maxAge := lj.maxAge
        compress := lj.compress }⟩ : Write)) ∈ (SetPath logPath s reg).1 ∧
    lj ∈ (SetPath logPath s reg).2.1 ∧
    (k', (⟨.stream sid⟩ : Write)) ∈ (SetPath logPath s reg).1 ∧
    (SetPath logPath s reg).2.2 = s := by
  have htrim : goTrimPre logPath lj.filename = '/' :: rel := by
    rw [hfn]
    exact goTrimPre_append _ _
  refine ⟨?_, ?_, ?_, ?_, rfl⟩
  · show (reg.map _).map Prod.fst = reg.map Prod.fst
    rw [List.map_map]
    apply List.map_congr_left
    intro p _
    obtain ⟨k0, ⟨o⟩⟩ := p
    cases o <;> rfl
  · refine List.mem_map.mpr ⟨(k, ⟨.lumberjack lj⟩), hmem, ?_⟩
    show (k, (⟨.lumberjack
      { filename := filepathJoin [s, goTrimPre logPath lj.filename]
        maxSize := lj.maxSize
        maxBackups := lj.maxBackups
        maxAge := lj.maxAge
        compress := lj.compress }⟩ : Write)) = _
    rw [htrim, filepathJoin_rooted s rel hclean]
  · exact List.mem_filterMap.mpr ⟨(k, ⟨.lumberjack lj⟩), hmem, rfl⟩
  · exact List.mem_map.mpr ⟨(k', ⟨.stream sid⟩), hstream, rfl⟩

/-- Witness for C7 on a two-sink registry with one file sink and one
stream sink. -/
theorem setPath_relocates_rotatable_sinks_witness :
    ("k1".toList, (⟨.lumberjack
      ⟨"/n/a/x.log".toList, 30, 0, 7, true⟩⟩ : Write)) ∈
      (SetPath "/t".toList "/n".toList
        [("k1".toList, ⟨.lumberjack ⟨"/t/a/x.log".toList, 30, 0, 7, true⟩⟩),
         ("k2".toList, ⟨.stream 5⟩)]).1 ∧
    ("k2".toList, (⟨.stream 5⟩ : Write)) ∈
      (SetPath "/t".toList "/n".toList
        [("k1".toList, ⟨.lumberjack ⟨"/t/a/x.log".toList, 30, 0, 7, true⟩⟩),
         ("k2".toList, ⟨.stream 5⟩)]).1 := by
  have h := setPath_relocates_rotatable_sinks "/t".toList "/n".toList
    [("k1".toList, ⟨.lumberjack ⟨"/t/a/x.log".toList, 30, 0, 7, true⟩⟩),
     ("k2".toList, ⟨.stream 5⟩)]
    "k1".toList "k2".toList ⟨"/t/a/x.log".toList, 30, 0, 7, true⟩
    "a/x.log".toList 5 (by decide) (by decide) (by decide) (by decide)
  exact ⟨h.2.1, h.2.2.2.1⟩

/-- C8: bulk `Rotate`/`Close` act only on sinks whose writer is a
rotatable file sink, silently skip all other sinks, leave everything
registered; the caller never observes an error — the collaborator's error
results cannot influence the outcome, which is why both functions return
plain registries — and a second `Close` (idempotent collaborator) or a
second `Rotate` completes with every sink still registered. -/
theorem rotate_close_skip_streams_swallow_errors :
    (∀ (ops : LJOps) (i : Nat),
      writeRotate ops ⟨.stream i⟩ = ⟨.stream i⟩ ∧
      writeClose ops ⟨.stream i⟩ = ⟨.stream i⟩) ∧
    (∀ (ops : LJOps) (reg : Registry) (k : GoStr) (i : Nat),
      (k, (⟨.stream i⟩ : Write)) ∈ reg →
        (k, (⟨.stream i⟩ : Write)) ∈ RotateAll ops reg ∧
        (k, (⟨.stream i⟩ : Write)) ∈ CloseAll ops reg) ∧
    (∀ (ops ops' : LJOps) (reg : Registry),
      (∀ lj, (ops.rotate lj).1 = (ops'.rotate lj).1) →
      RotateAll ops reg = RotateAll ops' reg) ∧
    (∀ (ops ops' : LJOps) (reg : Registry),
      (∀ lj, (ops.close lj).1 = (ops'.close lj).1) →
      CloseAll ops reg = CloseAll ops' reg) ∧
    (∀ (ops : LJOps) (reg : Registry),
      (∀ lj, (ops.close (ops.close lj).1).1 = (ops.close lj).1) →
      CloseAll ops (CloseAll ops reg) = CloseAll ops reg) ∧
    (∀ (ops : LJOps) (reg : Registry),
      (RotateAll ops (RotateAll ops reg)).map Prod.fst = reg.map Prod.fst ∧
      (CloseAll ops (CloseAll ops reg)).map Prod.fst = reg.map Prod.fst) := by
  refine ⟨fun _ _ => ⟨rfl, rfl⟩, ?_, ?_, ?_, ?_, ?_⟩
  · intro ops reg k i h
    exact ⟨List.mem_map.mpr ⟨(k, ⟨.stream i⟩), h, rfl⟩,
      List.mem_map.mpr ⟨(k, ⟨.stream i⟩), h, rfl⟩⟩
  · intro ops ops' reg h
    apply List.map_congr_left
    intro p _
    obtain ⟨k0, ⟨o⟩⟩ := p
    cases o with
    | lumberjack lj =>
        show (k0, (⟨.lumberjack (ops.rotate lj).1⟩ : Write)) = _
        rw [h lj]
        rfl
    | stream i => rfl
  · intro ops ops' reg h
    apply List.map_congr_left
    intro p _
    obtain ⟨k0, ⟨o⟩⟩ := p
    cases o with
    | lumberjack lj =>
        show (k0, (⟨.lumberjack (ops.close lj).1⟩ : Write)) = _
        rw [h lj]
        rfl
    | stream i => rfl
  · intro ops reg h
    unfold CloseAll
    rw [List.map_map]
    apply List.map_congr_left
    intro p _
    obtain ⟨k0, ⟨o⟩⟩ := p
    cases o with
    | lumberjack lj =>
        show (k0, (⟨.lumberjack (ops.close (ops.close lj).1).1⟩ : Write)) = _
        rw [h lj]
        rfl
    | stream i => rfl
  · intro ops reg
    unfold RotateAll CloseAll
    constructor <;>
      · rw [List.map_map, List.map_map]
        apply List.map_congr_left
        intro p _
        obtain ⟨k0, ⟨o⟩⟩ := p
        cases o <;> rfl

/-- Witness for C8: an identity-state collaborator on a mixed registry,
with the double-close and stream-preservation conclusions evaluated. -/
theorem rotate_close_skip_streams_swallow_errors_witness :
    CloseAll ⟨fun lj => (lj, none), fun lj => (lj, none)⟩
      (CloseAll ⟨fun lj => (lj, none), fun lj => (lj, none)⟩
        [("k".toList, ⟨.stream 0⟩),
         ("j".toList, ⟨.lumberjack ⟨"/f".toList, 30, 0, 7, true⟩⟩)]) =
      CloseAll ⟨fun lj => (lj, none), fun lj => (lj, none)⟩
        [("k".toList, ⟨.stream 0⟩),
         ("j".toList, ⟨.lumberjack ⟨"/f".toList, 30, 0, 7, true⟩⟩)] ∧
    ("k".toList, (⟨.stream 0⟩ : Write)) ∈
      RotateAll ⟨fun lj => (lj, none), fun lj => (lj, none)⟩
        [("k".toList, ⟨.stream 0⟩),
         ("j".toList, ⟨.lumberjack ⟨"/f".toList, 30, 0, 7, true⟩⟩)] := by
  refine ⟨?_, ?_⟩
  · exact rotate_close_skip_streams_swallow_errors.2.2.2.2.1
      ⟨fun lj => (lj, none), fun lj => (lj, none)⟩
      [("k".toList, ⟨.stream 0⟩),
       ("j".toList, ⟨.lumberjack ⟨"/f".toList, 30, 0, 7, true⟩⟩)]
      (fun _ => rfl)
  · exact (rotate_close_skip_streams_swallow_errors.2.1
      ⟨fun lj => (lj, none), fun lj => (lj, none)⟩
      [("k".toList, ⟨.stream 0⟩),
       ("j".toList, ⟨.lumberjack ⟨"/f".toList, 30, 0, 7, true⟩⟩)]
      "k".toList 0 (by decide)).1

/-- Two registries agreeing on a key yield the same `getOut` sink. -/
lemma getOut_fst_congr (cfg : Config) (l : Int) (n p : GoStr)
    {r1 r2 : Registry}
    (h : lookupW r1 (mkKey l n p) = lookupW r2 (mkKey l n p)) :
    (getOut cfg l n p r1).1 = (getOut cfg l n p r2).1 := by
  cases h2 : lookupW r2 (mkKey l n p) with
  | some w =>
      have h1 : lookupW r1 (mkKey l n p) = some w := h.trans h2
      simp [getOut, h1, h2]
  | none =>
      have h1 : lookupW r1 (mkKey l n p) = none := h.trans h2
      simp [getOut, h1, h2]

/-- C10: every Logger resolves its error sink under the level-0 error key
of its prefix, so `SetOutput` with a non-zero level installs its error
writer under a key no Logger ever reads: the level-0 error slot of every
prefix is untouched (existing Loggers' error destinations are these
slots), a Logger constructed afterwards gets the same error sink it would
have gotten before, and only the info writer — registered under the
`(level, "info", prefix)` key — can take effect. -/
theorem setOutput_nonzero_level_error_writer_inert (L : Int) (hL : L ≠ 0)
    (pre : GoStr) (iw ew : OutWriter) (reg : Registry) (q : GoStr)
    (cfg : Config) (lvl : Int) :
    lookupW (SetOutput L pre iw ew reg) (mkKey 0 errorCat q) =
      lookupW reg (mkKey 0 errorCat q) ∧
    lookupW (SetOutput L pre iw ew reg) (mkKey L errorCat pre) = some ⟨ew⟩ ∧
    mkKey L errorCat pre ≠ mkKey 0 errorCat q ∧
    lookupW (SetOutput L pre iw ew reg) (mkKey L infoCat pre) = some ⟨iw⟩ ∧
    (NewLog cfg lvl q (SetOutput L pre iw ew reg)).1.err =
      (NewLog cfg lvl q reg).1.err := by
  have hkE : mkKey L errorCat pre ≠ mkKey 0 errorCat q :=
    mkKey_ne_of_ne_zero hL (by decide) (by decide) pre q
  have hkI : mkKey L infoCat pre ≠ mkKey 0 errorCat q :=
    mkKey_info_ne_error L 0 pre q
  have ha : lookupW (SetOutput L pre iw ew reg) (mkKey 0 errorCat q) =
      lookupW reg (mkKey 0 errorCat q) := by
    unfold SetOutput
    rw [lookupW_setOutputOne_ne _ _ hkE, lookupW_setOutputOne_ne _ _ hkI]
  refine ⟨ha, ?_, hkE, ?_, ?_⟩
  · unfold SetOutput
    exact lookupW_setOutputOne_self _ _ _
  · unfold SetOutput
    rw [lookupW_setOutputOne_ne _ _
      (Ne.symm (mkKey_info_ne_error L L pre pre))]
    exact lookupW_setOutputOne_self _ _ _
  · have h1 : lookupW (getOut cfg lvl infoCat q
        (SetOutput L pre iw ew reg)).2 (mkKey 0 errorCat q) =
        lookupW (SetOutput L pre iw ew reg) (mkKey 0 errorCat q) :=
      getOut_lookup_ne cfg lvl infoCat q _ (mkKey_info_ne_error lvl 0 q q)
    have h3 : lookupW (getOut cfg lvl infoCat q reg).2 (mkKey 0 errorCat q) =
        lookupW reg (mkKey 0 errorCat q) :=
      getOut_lookup_ne cfg lvl infoCat q _ (mkKey_info_ne_error lvl 0 q q)
    exact getOut_fst_congr cfg 0 errorCat q ((h1.trans ha).trans h3.symm)

/-- Witness for C10 at level 1 on an empty registry. -/
theorem setOutput_nonzero_level_error_writer_inert_witness :
    (1 : Int) ≠ 0 ∧
    lookupW (SetOutput 1 [] (.stream 8) (.stream 9) [])
      (mkKey 0 errorCat "a".toList) =
      lookupW [] (mkKey 0 errorCat "a".toList) ∧
    (NewLog ⟨"p".toList, 42, "/l".toList, 30, 0, 7⟩ 0 "a".toList
      (SetOutput 1 [] (.stream 8) (.stream 9) [])).1.err =
      (NewLog ⟨"p".toList, 42, "/l".toList, 30, 0, 7⟩ 0 "a".toList []).1.err := by
  have h := setOutput_nonzero_level_error_writer_inert 1 (by norm_num) []
    (.stream 8) (.stream 9) [] "a".toList
    ⟨"p".toList, 42, "/l".toList, 30, 0, 7⟩ 0
  exact ⟨by norm_num, h.1, h.2.2.2.2⟩

end ZcLog
